import Mathlib

/-!
Shallow embedding of src/model.py (LLaMA-style decoder-only transformer with a
greedy generation loop), together with theorems settling the specification
claims about it.

Conventions of the embedding:
  * token ids are modelled as integers (the sentencepiece pad id may be -1);
  * logits and activations are modelled as rationals; the reference computes
    with floats, and transcendental kernels (exp inside softmax, rsqrt inside
    RMSNorm, silu, powers of theta, cosine and sine) are taken as function
    parameters, so every theorem quantifies over the kernel actually used;
  * tensors appear as lists or as index functions with explicit bounds,
    matching the shape of the numpy/torch objects they embed.
-/

set_option maxHeartbeats 1000000

namespace Llama

/-- Integer token ids as stored in the generation buffer (torch.long). -/
abbrev Tok := ℤ

/-- The tokenizer constants that the generation loop reads
(tokenizer.pad_id, tokenizer.eos_id) together with model_args.max_seq_len. -/
structure GenConfig where
  maxSeqLen : ℕ
  padId : Tok
  eosId : Tok

/-- A model as the generation loop sees it: from the batch of token prefixes
(gen_toks[:, :cur_pos]) to the full logits tensor of shape
(batch, prefix length, vocab), embedded as nested lists.
The loop only consumes logits[:, -1]. -/
abbrev Model := List (List Tok) → List (List (List ℚ))

/-- Embeds logits[:, -1]: the last-position logits row per batch row. -/
def lastLogits (m : Model) (pfx : List (List Tok)) : List (List ℚ) :=
  (m pfx).map (fun mat => mat.getLastD [])

/-- First index attaining the running maximum, accumulator form.
Mirrors torch.argmax over the vocab dimension, where ties resolve to the
lowest index. -/
def argmaxAux : List ℚ → ℕ → ℕ → ℚ → ℕ
  | [], _, bi, _ => bi
  | q :: rest, i, bi, bq =>
      if bq < q then argmaxAux rest (i + 1) i q else argmaxAux rest (i + 1) bi bq

/-- torch.argmax on one logits row: index of the first maximal entry. -/
def argmaxIdx : List ℚ → ℕ
  | [] => 0
  | q :: rest => argmaxAux rest 1 0 q

/-- Line 250: max_gen_len = max_gen if max_gen (a nonzero cap) else
max_seq_len - 1. -/
def effMaxGenLen (cfg : GenConfig) (maxGen : ℕ) : ℕ :=
  if maxGen ≠ 0 then maxGen else cfg.maxSeqLen - 1

/-- Line 251: min_tok_len = min(len(t) for t in prompt_toks). -/
def minTokLen (prompts : List (List Tok)) : ℕ :=
  match prompts.map List.length with
  | [] => 0
  | x :: xs => xs.foldl min x

/-- Line 252: max_tok_len = max(len(t) for t in prompt_toks). -/
def maxTokLen (prompts : List (List Tok)) : ℕ :=
  match prompts.map List.length with
  | [] => 0
  | x :: xs => xs.foldl max x

/-- Line 253: ttl_len = min(max_seq_len, max_gen_len + max_tok_len). -/
def ttlLen (cfg : GenConfig) (prompts : List (List Tok)) (maxGen : ℕ) : ℕ :=
  min cfg.maxSeqLen (effMaxGenLen cfg maxGen + maxTokLen prompts)

/-- Lines 256-258: the (bsz, ttl_len) buffer filled with pad_id with each
prompt copied into its row prefix, embedded as an index function
(row, column) -> token. Positions past a row's prompt read the pad fill.
The copy on line 258 requires every prompt to fit inside ttl_len (torch
raises on a size mismatch otherwise); theorems that need the buffer carry
that bound as a hypothesis. -/
def initTok (cfg : GenConfig) (prompts : List (List Tok)) : ℕ → ℕ → Tok :=
  fun r p => (prompts.getD r []).getD p cfg.padId

/-- Line 260: input_text_mask = gen_toks != pad_id, computed once from the
pad-initialized buffer before the loop starts. -/
def genMask (cfg : GenConfig) (prompts : List (List Tok)) : ℕ → ℕ → Bool :=
  fun r p => initTok cfg prompts r p != cfg.padId

/-- The loop state: the token buffer (as an index function over
row, column) and the per-row eos_reached flags. -/
structure GenState where
  toks : ℕ → ℕ → Tok
  eos : ℕ → Bool

/-- gen_toks[:, :cur_pos] materialized as a list of rows. -/
def prefixRows (bsz curPos : ℕ) (toks : ℕ → ℕ → Tok) : List (List Tok) :=
  (List.range bsz).map (fun r => (List.range curPos).map (toks r))

/-- Lines 263-265: the per-row candidate token,
argmax(model.forward(gen_toks[:, :cur_pos])[:, -1]). The argmax index over
the vocab dimension is the token id, cast to the buffer's integer type. -/
def candTok (m : Model) (bsz curPos : ℕ) (toks : ℕ → ℕ → Tok) (r : ℕ) : Tok :=
  (((lastLogits m (prefixRows bsz curPos toks)).map
      (fun row => (argmaxIdx row : ℤ))).getD r 0)

/-- Lines 263-268, one iteration of the loop body at cur_pos = p:
candidate by argmax, torch.where with the input-text mask, the column
write, and the eos_reached update. -/
def genStep (cfg : GenConfig) (m : Model) (bsz : ℕ) (mask : ℕ → ℕ → Bool)
    (st : GenState) (p : ℕ) : GenState :=
  let nxt : ℕ → Tok := fun r =>
    if mask r p then st.toks r p else candTok m bsz p st.toks r
  { toks := fun r q => if q = p then nxt r else st.toks r q
    eos := fun r => st.eos r || (!(mask r p) && decide (nxt r = cfg.eosId)) }

/-- Lines 262-269: the loop over cur_pos, with the early break once every
row's eos flag is set (checked after the body, as in the source). -/
def genLoop (cfg : GenConfig) (m : Model) (bsz : ℕ) (mask : ℕ → ℕ → Bool) :
    GenState → List ℕ → GenState
  | st, [] => st
  | st, p :: ps =>
      let st' := genStep cfg m bsz mask st p
      if (List.range bsz).all st'.eos then st'
      else genLoop cfg m bsz mask st' ps

/-- Line 259 and the buffer of lines 256-258 as the state the loop starts
from: eos_reached = [False] * bsz and the pad-initialized prompt buffer. -/
def genInit (cfg : GenConfig) (prompts : List (List Tok)) : GenState :=
  ⟨initTok cfg prompts, fun _ => false⟩

/-- The final loop state of one generate call: the loop run from the
pad-initialized buffer and all-false eos flags over
range(min_tok_len, ttl_len). -/
def genFinal (cfg : GenConfig) (m : Model) (prompts : List (List Tok))
    (maxGen : ℕ) : GenState :=
  genLoop cfg m prompts.length (genMask cfg prompts)
    (genInit cfg prompts)
    (List.range' (minTokLen prompts) (ttlLen cfg prompts maxGen - minTokLen prompts))

/-- Row r of the final buffer, materialized to a list of length ttl_len
(gen_toks.tolist()[r]). -/
def genRow (cfg : GenConfig) (m : Model) (prompts : List (List Tok))
    (maxGen : ℕ) (r : ℕ) : List Tok :=
  (List.range (ttlLen cfg prompts maxGen)).map ((genFinal cfg m prompts maxGen).toks r)

/-- Lines 272-278 for one row: slice [prompt_len, prompt_len + max_gen_len),
then truncate exclusively at the first eos occurrence when present. -/
def postProcessRow (eosId : Tok) (maxGenLen promptLen : ℕ) (row : List Tok) :
    List Tok :=
  let t := (row.drop promptLen).take maxGenLen
  if eosId ∈ t then t.take (t.indexOf eosId) else t

/-- Lines 244-280: the whole generate call, returning the per-row output
token lists. -/
def generate (cfg : GenConfig) (m : Model) (prompts : List (List Tok))
    (maxGen : ℕ) : List (List Tok) :=
  (List.range prompts.length).map (fun i =>
    postProcessRow cfg.eosId (effMaxGenLen cfg maxGen)
      (prompts.getD i []).length (genRow cfg m prompts maxGen i))

/-! Concrete instances used by witnesses and counterexamples. -/

/-- A model whose argmax candidate is always token 5 (vocab size 6). -/
def mFive : Model := fun pfx =>
  pfx.map (fun row => row.map (fun _ => [0, 0, 0, 0, 0, 1]))

/-- A model whose argmax candidate is always token 2 (the eos id below). -/
def mEos : Model := fun pfx =>
  pfx.map (fun row => row.map (fun _ => [0, 0, 1]))

/-- A model that picks token 3 until the prefix has length 4, then picks
token 2 (the eos id below): with a length-1 prompt it emits eos at
generated position 3. -/
def mW : Model := fun pfx =>
  pfx.map (fun row => row.map (fun _ =>
    if row.length = 4 then [0, 0, 1] else [0, 0, 0, 1]))

/-- pad id 0, eos id 2, max_seq_len 20. -/
def cfgW : GenConfig := ⟨20, 0, 2⟩

/-- pad id 0, eos id 2, max_seq_len 10. -/
def cfgC : GenConfig := ⟨10, 0, 2⟩

/-- A prompt batch whose first row contains the pad id 0 strictly inside the
prompt, at position 1 < 3 = its prompt length; the second row has prompt
length 1, so the loop starts at cur_pos = 1. -/
def promptsC : List (List Tok) := [[3, 0, 4], [7]]

/-- A pad-free prompt batch with rows of different lengths. -/
def promptsPF : List (List Tok) := [[3, 4], [7]]

/-! Helper lemmas about the generation loop. -/

lemma getD_mem_of_lt {α : Type} (l : List α) (d : α) (k : ℕ)
    (h : k < l.length) : l.getD k d ∈ l := by
  induction l generalizing k with
  | nil => simp at h
  | cons a t ih =>
      cases k with
      | zero => simp [List.getD]
      | succ k =>
          have hk : k < t.length := by simpa using h
          simpa [List.getD] using Or.inr (ih k hk)

lemma getD_of_le {α : Type} (l : List α) (d : α) (k : ℕ)
    (h : l.length ≤ k) : l.getD k d = d := by
  induction l generalizing k with
  | nil => simp [List.getD]
  | cons a t ih =>
      cases k with
      | zero => simp at h
      | succ k => simpa [List.getD] using ih k (by simpa using h)

lemma getD_map_range {α : Type} (f : ℕ → α) (d : α) (r n : ℕ) (h : r < n) :
    ((List.range n).map f).getD r d = f r := by
  simp [List.getD_eq_getElem?_getD, List.getElem?_map, List.getElem?_range, h]

lemma genStep_toks_at (cfg : GenConfig) (m : Model) (bsz : ℕ)
    (mask : ℕ → ℕ → Bool) (st : GenState) (p r : ℕ) :
    (genStep cfg m bsz mask st p).toks r p
      = if mask r p then st.toks r p else candTok m bsz p st.toks r := by
  simp [genStep]

lemma genStep_toks_preserve (cfg : GenConfig) (m : Model) (bsz : ℕ)
    (mask : ℕ → ℕ → Bool) (st : GenState) (q r p : ℕ)
    (h : mask r p = true) :
    (genStep cfg m bsz mask st q).toks r p = st.toks r p := by
  by_cases hpq : p = q
  · subst hpq; simp [genStep, h]
  · simp [genStep, hpq]

lemma genStep_eos_mono (cfg : GenConfig) (m : Model) (bsz : ℕ)
    (mask : ℕ → ℕ → Bool) (st : GenState) (p r : ℕ)
    (h : st.eos r = true) :
    (genStep cfg m bsz mask st p).eos r = true := by
  simp [genStep, h]

lemma genLoop_toks_preserve (cfg : GenConfig) (m : Model) (bsz : ℕ)
    (mask : ℕ → ℕ → Bool) (r p : ℕ) (h : mask r p = true) :
    ∀ (ps : List ℕ) (st : GenState),
      (genLoop cfg m bsz mask st ps).toks r p = st.toks r p := by
  intro ps
  induction ps with
  | nil => intro st; rfl
  | cons q qs ih =>
      intro st
      show (if (List.range bsz).all (genStep cfg m bsz mask st q).eos
            then genStep cfg m bsz mask st q
            else genLoop cfg m bsz mask (genStep cfg m bsz mask st q) qs).toks r p
          = st.toks r p
      split
      · exact genStep_toks_preserve cfg m bsz mask st q r p h
      · rw [ih, genStep_toks_preserve cfg m bsz mask st q r p h]

lemma genLoop_eos_mono (cfg : GenConfig) (m : Model) (bsz : ℕ)
    (mask : ℕ → ℕ → Bool) (r : ℕ) :
    ∀ (ps : List ℕ) (st : GenState), st.eos r = true →
      (genLoop cfg m bsz mask st ps).eos r = true := by
  intro ps
  induction ps with
  | nil => intro st h; exact h
  | cons q qs ih =>
      intro st h
      show (if (List.range bsz).all (genStep cfg m bsz mask st q).eos
            then genStep cfg m bsz mask st q
            else genLoop cfg m bsz mask (genStep cfg m bsz mask st q) qs).eos r
          = true
      split
      · exact genStep_eos_mono cfg m bsz mask st q r h
      · exact ih _ (genStep_eos_mono cfg m bsz mask st q r h)

lemma indexOf_of_first (a : Tok) :
    ∀ (l : List Tok) (k : ℕ), k < l.length → l.getD k a = a →
      (∀ j, j < k → l.getD j a ≠ a) → l.indexOf a = k := by
  intro l
  induction l with
  | nil => intro k hk; simp at hk
  | cons b t ih =>
      intro k hk hval hbefore
      cases k with
      | zero =>
          have hb : b = a := by simpa [List.getD] using hval
          simp [hb, List.indexOf_cons_self]
      | succ k =>
          have hb : b ≠ a := by
            have := hbefore 0 (Nat.succ_pos k)
            simpa [List.getD] using this
          have ht : t.indexOf a = k := by
            refine ih k (by simpa using hk) (by simpa [List.getD] using hval) ?_
            intro j hj
            have := hbefore (j + 1) (by omega)
            simpa [List.getD] using this
          simp [List.indexOf_cons_ne _ hb, ht]

/-! Claim theorems about the generation loop. -/

/-- C3: the generation loop computes total_len = min(max_seq_len,
max_gen_len + max_prompt_len); allocates a (batch, total_len) buffer filled
with the pad id with each prompt copied into its row prefix; iterates
cur_pos over exactly the positions from the minimum prompt length up to
total_len - 1; and at each step the candidate token per row is the argmax
of the logits at the last position of the model run on tokens[:, :cur_pos]. -/
theorem generate_loop_structure (cfg : GenConfig) (m : Model)
    (prompts : List (List Tok)) (maxGen : ℕ)
    (hmin : minTokLen prompts ≤ ttlLen cfg prompts maxGen) :
    ttlLen cfg prompts maxGen
        = min cfg.maxSeqLen (effMaxGenLen cfg maxGen + maxTokLen prompts)
    ∧ (∀ r, (genRow cfg m prompts maxGen r).length = ttlLen cfg prompts maxGen)
    ∧ (∀ r p, p < (prompts.getD r []).length →
        initTok cfg prompts r p = (prompts.getD r []).getD p cfg.padId)
    ∧ (∀ r p, (prompts.getD r []).length ≤ p →
        initTok cfg prompts r p = cfg.padId)
    ∧ (∀ p, p ∈ List.range' (minTokLen prompts)
          (ttlLen cfg prompts maxGen - minTokLen prompts)
        ↔ minTokLen prompts ≤ p ∧ p < ttlLen cfg prompts maxGen)
    ∧ (∀ (st : GenState) (p r : ℕ),
        (genStep cfg m prompts.length (genMask cfg prompts) st p).toks r p
          = if genMask cfg prompts r p then st.toks r p
            else ((m (prefixRows prompts.length p st.toks)).map
                (fun mat => ((argmaxIdx (mat.getLastD [])) : ℤ))).getD r 0) := by
  refine ⟨rfl, ?_, ?_, ?_, ?_, ?_⟩
  · intro r; simp [genRow]
  · intro r p _; rfl
  · intro r p hp; exact getD_of_le _ _ _ hp
  · intro p
    rw [List.mem_range'_1, Nat.add_sub_cancel' hmin]
  · intro st p r
    rw [genStep_toks_at]
    have hcand : candTok m prompts.length p st.toks r
        = ((m (prefixRows prompts.length p st.toks)).map
            (fun mat => ((argmaxIdx (mat.getLastD [])) : ℤ))).getD r 0 := by
      simp only [candTok, lastLogits, List.map_map]
      rfl
    rw [hcand]

/-- C3 witness: a concrete instantiation with a single length-1 prompt,
cap 10, max_seq_len 20. -/
theorem generate_loop_structure_witness :
    minTokLen [[(4 : ℤ)]] ≤ ttlLen cfgW [[4]] 10
    ∧ ttlLen cfgW [[4]] 10
        = min cfgW.maxSeqLen (effMaxGenLen cfgW 10 + maxTokLen [[4]]) :=
  ⟨by decide, (generate_loop_structure cfgW mW [[4]] 10 (by decide)).1⟩

/-- C5: each output row of generate is the final buffer row sliced from the
row's own prompt length up to prompt length + max_gen_len, truncated
exclusively at the first eos occurrence when one appears in the slice
(returned whole otherwise); the truncated row's length is the index of the
first eos occurrence in the slice. -/
theorem generate_postprocess_truncation (cfg : GenConfig) (m : Model)
    (prompts : List (List Tok)) (maxGen : ℕ) (r : ℕ)
    (hr : r < prompts.length) :
    (generate cfg m prompts maxGen).getD r []
        = postProcessRow cfg.eosId (effMaxGenLen cfg maxGen)
(prompts.getD r []).length (genRow cfg m prompts maxGen r)
    ∧ (∀ (eosId : Tok) (mgl plen : ℕ) (row : List Tok),
        (eosId ∉ (row.drop plen).take mgl →
          postProcessRow eosId mgl plen row = (row.drop plen).take mgl)
        ∧ ∀ k, k < ((row.drop plen).take mgl).length →
            ((row.drop plen).take mgl).getD k eosId = eosId →
            (∀ j, j < k → ((row.drop plen).take mgl).getD j eosId ≠ eosId) →
            postProcessRow eosId mgl plen row = ((row.drop plen).take mgl).take k
            ∧ (postProcessRow eosId mgl plen row).length = k) := by
  constructor
  · exact getD_map_range _ _ _ _ hr
  · intro eosId mgl plen row
    constructor
    · intro hnot
      simp [postProcessRow, hnot]
    · intro k hk hval hbefore
      have hmem : eosId ∈ (row.drop plen).take mgl := by
        have := getD_mem_of_lt ((row.drop plen).take mgl) eosId k hk
        rwa [hval] at this
      have hidx : ((row.drop plen).take mgl).indexOf eosId = k :=
        indexOf_of_first eosId _ k hk hval hbefore
      have heq : postProcessRow eosId mgl plen row
          = ((row.drop plen).take mgl).take k := by
        simp [postProcessRow, hmem, hidx]
      refine ⟨heq, ?_⟩
      rw [heq, List.length_take]
      exact Nat.min_eq_left (Nat.le_of_lt hk)

/-- C5 witness: the claim's concrete scenario. One row with prompt length 1
and cap max_gen_len = 10; the model mW emits the eos id 2 at generated
position 3, and the returned row has length exactly 3. -/
theorem generate_postprocess_truncation_witness :
    0 < 1 ∧ ((generate cfgW mW [[4]] 10).getD 0 []).length = 3 := by
  refine ⟨by decide, ?_⟩
  have h := generate_postprocess_truncation cfgW mW [[4]] 10 0 (by decide)
  have h2 := ((h.2 cfgW.eosId 10 1 (genRow cfgW mW [[4]] 10 0)).2 3
    (by decide) (by decide) (by decide)).2
  rw [h.1]
  exact h2

/-- C2 counterexample: the loop decides in-prompt by token != pad_id, not by
position < prompt length. In promptsC row 0 has prompt [3, 0, 4] with the
pad id 0 at position 1 < 3 = its own prompt length; the loop (with a model
whose argmax candidate is always 5) overwrites that position with the
candidate 5 instead of keeping the known prompt token 0, refuting the claim
that a row still inside its own prompt length keeps its prompt token. -/
theorem inprompt_pad_overwrite_cex :
    (genFinal cfgC mFive promptsC 3).toks 0 1 = 5
    ∧ (promptsC.getD 0 []).getD 1 cfgC.padId = 0
    ∧ 1 < (promptsC.getD 0 []).length
    ∧ (5 : ℤ) ≠ 0 := by decide

/-- C2 amended: provided no prompt token equals the pad id (so the loop's
token != pad_id test coincides with position < own prompt length), a row
still inside its own prompt length keeps its known prompt token in the
buffer for the whole loop, and at any loop step a row whose own prompt is
exhausted at that position receives the model-chosen argmax candidate —
regardless of the other rows' prompt lengths (no cross-row leakage). -/
theorem inprompt_preservation_padfree (cfg : GenConfig) (m : Model)
    (prompts : List (List Tok)) (maxGen : ℕ) (r : ℕ)
    (hr : r < prompts.length)
    (hpadfree : ∀ t ∈ prompts, ∀ x ∈ t, x ≠ cfg.padId) :
    (∀ p, p < (prompts.getD r []).length →
        (genFinal cfg m prompts maxGen).toks r p
          = (prompts.getD r []).getD p cfg.padId)
    ∧ (∀ (st : GenState) (p : ℕ), (prompts.getD r []).length ≤ p →
        (genStep cfg m prompts.length (genMask cfg prompts) st p).toks r p
          = candTok m prompts.length p st.toks r) := by
  constructor
  · intro p hp
    have htok : (prompts.getD r []).getD p cfg.padId ≠ cfg.padId :=
      hpadfree (prompts.getD r []) (getD_mem_of_lt prompts [] r hr)
        ((prompts.getD r []).getD p cfg.padId)
        (getD_mem_of_lt (prompts.getD r []) cfg.padId p hp)
    have hmask : genMask cfg prompts r p = true := by
      simp only [genMask, initTok]
      exact bne_iff_ne.mpr htok
    rw [genFinal, genLoop_toks_preserve cfg m prompts.length
      (genMask cfg prompts) r p hmask]
    rfl
  · intro st p hp
    have hmask : genMask cfg prompts r p = false := by
      simp only [genMask, initTok]
      exact bne_eq_false_iff_eq.mpr (getD_of_le _ _ _ hp)
    rw [genStep_toks_at, if_neg (by simp [hmask])]

/-- C2 witness: a pad-free batch with prompt lengths 2 and 1; the loop
starts at cur_pos = 1, inside row 0's prompt, and the final buffer keeps
row 0's prompt token 4 at position 1. -/
theorem inprompt_preservation_padfree_witness :
    0 < 2 ∧ (∀ t ∈ promptsPF, ∀ x ∈ t, x ≠ cfgC.padId)
    ∧ (genFinal cfgC mFive promptsPF 3).toks 0 1 = 4 := by
  refine ⟨by decide, by decide, ?_⟩
  have h := (inprompt_preservation_padfree cfgC mFive promptsPF 3 0
    (by decide) (by decide)).1 1 (by decide)
  rw [h]
  decide

/-- C7 counterexample: the eos flag is keyed to the pad-based mask, not to
the row's own prompt length. In promptsC row 0 has prompt [3, 0, 4] with
the pad id at position 1 < 3; with a model whose argmax candidate is the
eos id 2, the very first loop step (cur_pos = 1) sets row 0's flag while
the row is still inside its own prompt length, refuting the claim that the
flag is set exactly when the row, no longer in-prompt, emits eos. -/
theorem eos_flag_inprompt_cex :
    (genStep cfgC mEos 2 (genMask cfgC promptsC) (genInit cfgC promptsC) 1).eos 0
      = true
    ∧ (genInit cfgC promptsC).eos 0 = false
    ∧ 1 < (promptsC.getD 0 []).length := by decide

/-- C7 amended: during one generate call the per-row eos flag vector starts
all-false; one loop step sets the flag of row r exactly when it was already
set or the pad-based input-text mask is false at (r, cur_pos) and the
chosen candidate equals the eos id; the flags are monotone (never reset);
and the loop exits immediately after the first step that leaves every
row's flag true (the remaining positions are not processed). -/
theorem eos_flag_invariants (cfg : GenConfig) (m : Model) :
    (∀ (prompts : List (List Tok)) (r : ℕ), (genInit cfg prompts).eos r = false)
    ∧ (∀ (bsz : ℕ) (mask : ℕ → ℕ → Bool) (st : GenState) (p r : ℕ),
        (genStep cfg m bsz mask st p).eos r
          = (st.eos r || (!(mask r p)
              && decide (candTok m bsz p st.toks r = cfg.eosId))))
    ∧ (∀ (bsz : ℕ) (mask : ℕ → ℕ → Bool) (ps : List ℕ) (st : GenState) (r : ℕ),
        st.eos r = true → (genLoop cfg m bsz mask st ps).eos r = true)
    ∧ (∀ (bsz : ℕ) (mask : ℕ → ℕ → Bool) (st : GenState) (p : ℕ) (ps : List ℕ),
        (List.range bsz).all (genStep cfg m bsz mask st p).eos = true →
        genLoop cfg m bsz mask st (p :: ps) = genStep cfg m bsz mask st p) := by
  refine ⟨fun _ _ => rfl, ?_, ?_, ?_⟩
  · intro bsz mask st p r
    rcases h : mask r p with _ | _
    · simp [genStep, h]
    · simp [genStep, h]
  · intro bsz mask ps st r h
    exact genLoop_eos_mono cfg m bsz mask r ps st h
  · intro bsz mask st p ps h
    show (if (List.range bsz).all (genStep cfg m bsz mask st p).eos
          then genStep cfg m bsz mask st p
          else genLoop cfg m bsz mask (genStep cfg m bsz mask st p) ps)
        = genStep cfg m bsz mask st p
    rw [h]
    rfl

/-- C7 witness: with promptsC and the always-eos model, the first step at
cur_pos = 1 already sets every row's flag, and the loop over positions
1..5 stops right there, equal to that single step. -/
theorem eos_flag_invariants_witness :
    (List.range 2).all
        (genStep cfgC mEos 2 (genMask cfgC promptsC) (genInit cfgC promptsC) 1).eos
      = true
    ∧ genLoop cfgC mEos 2 (genMask cfgC promptsC) (genInit cfgC promptsC)
        (List.range' 1 5)
      = genStep cfgC mEos 2 (genMask cfgC promptsC) (genInit cfgC promptsC) 1 := by
  refine ⟨by decide, ?_⟩
  exact (eos_flag_invariants cfgC mEos).2.2.2 2 (genMask cfgC promptsC)
    (genInit cfgC promptsC) 1 (List.range' 2 4) (by decide)

/-- C10: the loop decides in-prompt purely by token != pad id against the
pad-initialized buffer, via a mask fixed before the loop; consequently, at
any loop step, a row whose prompt stores the pad id at the current position
is overwritten with the model's argmax candidate instead of the prompt
token, and the eos flag update counts an eos candidate chosen there toward
finishing that row. -/
theorem pad_sentinel_mask_step (cfg : GenConfig) (m : Model)
    (prompts : List (List Tok)) (r p : ℕ) (st : GenState)
    (hpad : (prompts.getD r []).getD p cfg.padId = cfg.padId) :
    (∀ r' p', genMask cfg prompts r' p'
        = (initTok cfg prompts r' p' != cfg.padId))
    ∧ (genStep cfg m prompts.length (genMask cfg prompts) st p).toks r p
        = candTok m prompts.length p st.toks r
    ∧ (genStep cfg m prompts.length (genMask cfg prompts) st p).eos r
        = (st.eos r
            || decide (candTok m prompts.length p st.toks r = cfg.eosId)) := by
  have hmask : genMask cfg prompts r p = false := by
    simp only [genMask, initTok]
    exact bne_eq_false_iff_eq.mpr hpad
  refine ⟨fun _ _ => rfl, ?_, ?_⟩
  · rw [genStep_toks_at, if_neg (by simp [hmask])]
  · simp [genStep, hmask]

/-- C10 witness: promptsC row 0 stores the pad id 0 at position 1, at and
beyond the minimum prompt length 1; the step at cur_pos = 1 writes the
argmax candidate there. -/
theorem pad_sentinel_mask_step_witness :
    (promptsC.getD 0 []).getD 1 cfgC.padId = cfgC.padId
    ∧ (genStep cfgC mFive 2 (genMask cfgC promptsC) (genInit cfgC promptsC) 1).toks 0 1
        = candTok mFive 2 1 (genInit cfgC promptsC).toks 0 :=
  ⟨by decide, (pad_sentinel_mask_step cfgC mFive promptsC 0 1
    (genInit cfgC promptsC) (by decide)).2.1⟩

/-! FeedForward hidden-dimension computation, lines 137-145, and the
nominal hidden width 4 * dim passed by TransformerBlock on line 160. -/

/-- Lines 139-141: hidden_dim = int(2 * hidden_dim / 3), then optionally
hidden_dim = int(ffn_dim_multiplier * hidden_dim). Python's int() truncates
toward zero, which on the nonnegative widths in scope is the floor; the
optional multiplier is a float in the source, modelled as an exact
rational. -/
def ffnPreRound (hidden : ℕ) (mult : Option ℚ) : ℕ :=
  let h1 : ℕ := 2 * hidden / 3
  match mult with
  | none => h1
  | some q => (⌊q * (h1 : ℚ)⌋).toNat

/-- Line 142: hidden_dim = multiple_of * ((hidden_dim + multiple_of - 1)
// multiple_of), applied after the 2/3 reduction and optional multiplier. -/
def ffnHiddenDim (hidden multipleOf : ℕ) (mult : Option ℚ) : ℕ :=
  multipleOf * ((ffnPreRound hidden mult + multipleOf - 1) / multipleOf)

lemma cast_pred_div (h m : ℕ) (hm : 0 < m) :
    (((h + m - 1) / m : ℕ) : ℤ) = ⌈(h : ℚ) / (m : ℚ)⌉ := by
  have hmQ : (0 : ℚ) < (m : ℚ) := by exact_mod_cast hm
  have h1 : h ≤ m * ((h + m - 1) / m) := by
    have hcd := le_smul_ceilDiv (a := m) (b := h) hm
    simpa [Nat.ceilDiv_eq_add_pred_div, smul_eq_mul] using hcd
  have h2 : m * ((h + m - 1) / m) < h + m := by
    have hle : (h + m - 1) / m * m ≤ h + m - 1 := Nat.div_mul_le_self _ _
    have hle2 : m * ((h + m - 1) / m) ≤ h + m - 1 := by rwa [mul_comm] at hle
    exact lt_of_le_of_lt hle2 (Nat.sub_lt (Nat.add_pos_right h hm) Nat.one_pos)
  set n : ℕ := (h + m - 1) / m with hn
  have h1Q : (h : ℚ) ≤ (m : ℚ) * (n : ℚ) := by exact_mod_cast h1
  have h2Q : (m : ℚ) * (n : ℚ) < (h : ℚ) + (m : ℚ) := by exact_mod_cast h2
  symm
  rw [Int.ceil_eq_iff]
  constructor
  · rw [lt_div_iff₀ hmQ]
    push_cast
    nlinarith [h2Q]
  · rw [div_le_iff₀ hmQ]
    push_cast
    nlinarith [h1Q]

/-- C4: the effective FeedForward hidden dimension is the nominal width
after the 2/3 reduction and optional multiplier, rounded up to the nearest
multiple of multiple_of — exactly hidden = ceil(hidden / multiple_of) *
multiple_of; in particular for dim = 4096 (nominal width 4 * 4096),
multiple_of = 256 and no multiplier it equals
256 * ceil((2 * 4096 * 4 / 3) / 256) = 11008 exactly. -/
theorem ffn_hidden_rounding (hidden m : ℕ) (mult : Option ℚ) (hm : 0 < m) :
    ((ffnHiddenDim hidden m mult : ℕ) : ℤ)
        = (m : ℤ) * ⌈((ffnPreRound hidden mult : ℚ)) / (m : ℚ)⌉
    ∧ ffnHiddenDim (4 * 4096) 256 none = 11008
    ∧ (256 : ℤ) * ⌈((2 * 4096 * 4 : ℚ) / 3) / 256⌉ = 11008 := by
  refine ⟨?_, by decide, ?_⟩
  · show (((m * ((ffnPreRound hidden mult + m - 1) / m) : ℕ)) : ℤ) = _
    rw [Nat.cast_mul, cast_pred_div _ m hm]
  · have hv : ((2 * 4096 * 4 : ℚ) / 3) / 256 = 128 / 3 := by norm_num
    rw [hv]
    have hc : ⌈(128 / 3 : ℚ)⌉ = 43 := by
      rw [Int.ceil_eq_iff]
      norm_num
    rw [hc]
    norm_num

/-- C4 witness: the rounding identity instantiated at dim = 4096,
multiple_of = 256, no multiplier. -/
theorem ffn_hidden_rounding_witness :
    0 < 256 ∧ ffnHiddenDim (4 * 4096) 256 none = 11008 :=
  ⟨by decide, (ffn_hidden_rounding (4 * 4096) 256 none (by decide)).2.1⟩

/-! Model construction, lines 15-29 (ModelArgs), 82-89
(Attention.__init__) and 176-190 (Transformer.__init__). -/

/-- ModelArgs (lines 15-29), with the source's defaults. The float fields
are modelled as exact rationals. -/
structure ModelArgs where
  dim : ℕ := 4096
  n_layers : ℕ := 32
  n_heads : ℕ := 32
  n_kv_heads : Option ℕ := none
  vocab_size : ℕ := 32000
  multiple_of : ℕ := 256
  ffn_dim_multiplier : Option ℚ := none
  norm_eps : ℚ := 1 / 100000
  max_batch_size : ℕ := 32
  max_seq_len : ℕ := 1024
  img_len : ℕ := 577
  img_dim : ℕ := 1024
  max_gen_len : ℕ := 32

/-- The shape of an nn.Linear layer: input and output feature counts. -/
structure LinearShape where
  inF : ℕ
  outF : ℕ
deriving DecidableEq

/-- The shapes Attention.__init__ creates. -/
structure AttentionShapes where
  n_heads : ℕ
  head_dim : ℕ
  wq : LinearShape
  wk : LinearShape
  wv : LinearShape
  wo : LinearShape
deriving DecidableEq

/-- Attention.__init__ (lines 82-89): head_dim = dim // n_heads and four
bias-free Linear layers. The constructor contains no assertion or any
other failure path — in particular dim % n_heads is never checked — so it
always succeeds; the Option result only makes a failing construction
representable. -/
def attentionInit (args : ModelArgs) : Option AttentionShapes :=
  some { n_heads := args.n_heads
         head_dim := args.dim / args.n_heads
         wq := ⟨args.dim, args.n_heads * (args.dim / args.n_heads)⟩
         wk := ⟨args.dim, args.n_heads * (args.dim / args.n_heads)⟩
         wv := ⟨args.dim, args.n_heads * (args.dim / args.n_heads)⟩
         wo := ⟨args.n_heads * (args.dim / args.n_heads), args.dim⟩ }

/-- The shapes Transformer.__init__ creates (per layer they repeat). -/
structure TransformerShapes where
  embRows : ℕ
  embCols : ℕ
  attn : AttentionShapes
  ffnHidden : ℕ
  freqRows : ℕ
  freqCols : ℕ
  outProj : LinearShape
deriving DecidableEq

/-- Transformer.__init__ (lines 176-190): the embedding table, the rotary
table for head dimension dim // n_heads over max_seq_len * 2 positions,
n_layers TransformerBlocks (each building Attention and FeedForward with
nominal hidden width 4 * dim), the final norm and the output projection.
No step of it can fail: there is no validation anywhere in construction. -/
def transformerInit (args : ModelArgs) : Option TransformerShapes := do
  let a ← attentionInit args
  some { embRows := args.vocab_size
         embCols := args.dim
         attn := a
         ffnHidden := ffnHiddenDim (4 * args.dim) args.multiple_of
           args.ffn_dim_multiplier
         freqRows := args.max_seq_len * 2
         freqCols := (args.dim / args.n_heads) / 2
         outProj := ⟨args.dim, args.vocab_size⟩ }

/-- C6 counterexample: for dim = 5, n_heads = 2 (so dim % n_heads = 1 ≠ 0)
construction succeeds — there is no eager validation and no fatal failure,
refuting the claim that construction never succeeds on such a
configuration. -/
theorem construction_no_dim_check_cex :
    (5 : ℕ) % 2 ≠ 0
    ∧ (transformerInit { dim := 5, n_heads := 2 }).isSome = true := by
  constructor
  · decide
  · rfl

/-- C6 amended: model construction performs no dimension/head-count
validation at all: it succeeds for every configuration, including every
one with dim % n_heads ≠ 0, silently computing head_dim = dim // n_heads
by truncating integer division. -/
theorem construction_total_headdim_floor (args : ModelArgs) :
    (transformerInit args).isSome = true
    ∧ (transformerInit args).map (fun s => s.attn.head_dim)
        = some (args.dim / args.n_heads) :=
  ⟨rfl, rfl⟩

/-! Rotary positional encoding: precompute_freqs_cis (lines 192-201) and
the complex-pair reinterpretation of apply_rotary_emb (lines 98-104). -/

/-- Complex multiplication on (real, imaginary) pairs — the torch complex
multiply after view_as_complex. -/
def cmul (a b : ℚ × ℚ) : ℚ × ℚ :=
  (a.1 * b.1 - a.2 * b.2, a.1 * b.2 + a.2 * b.1)

/-- torch.view_as_complex of reshape(..., -1, 2) on one vector: adjacent
value pairs become (real, imaginary) pairs. -/
def pairUp : List ℚ → List (ℚ × ℚ)
  | [] => []
  | [_] => []
  | a :: b :: rest => (a, b) :: pairUp rest

/-- torch.view_as_real followed by flatten on one vector: the inverse
reinterpretation. -/
def unpair (l : List (ℚ × ℚ)) : List ℚ :=
  (l.map (fun p => [p.1, p.2])).flatten

/-- Lines 193-197: the d/2 base frequencies 1 / theta ** ((2 i) / d) for
i in [0, d/2) (arange(0, d, 2) sliced to d/2 entries, divided by d). The
real power s ↦ theta ** s is the function parameter powF. -/
def baseFreqs (powF : ℚ → ℚ) (dim : ℕ) : List ℚ :=
  (List.range (dim / 2)).map (fun i => 1 / powF (((2 * i : ℕ) : ℚ) / (dim : ℚ)))

/-- Lines 198-201: the outer product of positions 0..end-1 with the base
frequencies gives the angles t * f; torch.polar(ones, angles) represents
each as a unit-magnitude (cos, sin) pair. cosF and sinF stand for the real
cosine and sine. -/
def precomputeFreqsCis (cosF sinF powF : ℚ → ℚ) (dim endPos : ℕ) :
    List (List (ℚ × ℚ)) :=
  (List.range endPos).map (fun (t : ℕ) =>
    (baseFreqs powF dim).map (fun f => (cosF ((t : ℚ) * f), sinF ((t : ℚ) * f))))

/-- One position's rotary application to one head vector: reinterpret as
complex pairs, multiply elementwise by the position's rotation pairs,
flatten back (lines 99-103 at a single batch, position, head index). -/
def rotVec (f : List (ℚ × ℚ)) (v : List ℚ) : List ℚ :=
  unpair (List.zipWith cmul (pairUp v) f)

lemma cmul_one (a : ℚ × ℚ) : cmul a (1, 0) = a := by
  cases a with
  | mk x y => simp [cmul]

lemma pairUp_length : ∀ v : List ℚ, (pairUp v).length = v.length / 2
  | [] => rfl
  | [_] => by simp [pairUp]
  | a :: b :: rest => by
      simp only [pairUp, List.length_cons, pairUp_length rest]
      omega

lemma unpair_pairUp : ∀ v : List ℚ, v.length % 2 = 0 → unpair (pairUp v) = v
  | [], _ => rfl
  | [a], h => by simp at h
  | a :: b :: rest, h => by
      have hr : rest.length % 2 = 0 := by
        simp only [List.length_cons] at h
        omega
      show a :: b :: unpair (pairUp rest) = a :: b :: rest
      rw [unpair_pairUp rest hr]

lemma zipWith_cmul_ones :
    ∀ (ps qs : List (ℚ × ℚ)), (∀ q ∈ qs, q = (1, 0)) → ps.length ≤ qs.length →
      List.zipWith cmul ps qs = ps
  | [], _, _, _ => by simp
  | p :: ps, [], _, hlen => by simp at hlen
  | p :: ps, q :: qs, hq, hlen => by
      have hq0 : q = (1, 0) := hq q (by simp)
      have hqs : ∀ x ∈ qs, x = (1, 0) := fun x hx => hq x (by simp [hx])
      simp only [List.zipWith_cons_cons, hq0, cmul_one]
      rw [zipWith_cmul_ones ps qs hqs (by simpa using hlen)]

/-- C9: every entry of row 0 of the precomputed frequency table is the unit
complex number of angle zero (position 0 times every base frequency is 0,
whatever theta power the frequency is), so rotary application at position 0
returns any even-length head vector unchanged. cosF and sinF are the real
cosine and sine, so cosF 0 = 1 and sinF 0 = 0. -/
theorem rotary_position_zero_identity (cosF sinF powF : ℚ → ℚ)
    (dim endPos : ℕ) (v : List ℚ)
    (hcos : cosF 0 = 1) (hsin : sinF 0 = 0) (hend : 0 < endPos)
    (hlen : v.length ≤ dim) (heven : v.length % 2 = 0) :
    (∀ e ∈ (precomputeFreqsCis cosF sinF powF dim endPos).getD 0 [],
        e = ((1 : ℚ), (0 : ℚ)))
    ∧ rotVec ((precomputeFreqsCis cosF sinF powF dim endPos).getD 0 []) v = v := by
  have hrow : (precomputeFreqsCis cosF sinF powF dim endPos).getD 0 []
      = (baseFreqs powF dim).map (fun _ => (cosF 0, sinF 0)) := by
    rw [precomputeFreqsCis, getD_map_range _ _ 0 endPos hend]
    simp
  have hconst : ∀ e ∈ (precomputeFreqsCis cosF sinF powF dim endPos).getD 0 [],
      e = ((1 : ℚ), (0 : ℚ)) := by
    rw [hrow]
    intro e he
    rcases List.mem_map.1 he with ⟨f, _, hfe⟩
    rw [← hfe]
    simp [hcos, hsin]
  refine ⟨hconst, ?_⟩
  rw [rotVec, zipWith_cmul_ones (pairUp v) _ hconst ?_, unpair_pairUp v heven]
  rw [hrow, List.length_map, pairUp_length, baseFreqs, List.length_map,
    List.length_range]
  exact Nat.div_le_div_right hlen

/-- C9 witness: the identity instantiated with concrete kernels at head
dimension 4, two table positions and the vector [1, 2, 3, 4]. -/
theorem rotary_position_zero_identity_witness :
    ((fun _ : ℚ => (1 : ℚ)) 0 = 1) ∧ ((fun _ : ℚ => (0 : ℚ)) 0 = 0)
    ∧ rotVec ((precomputeFreqsCis (fun _ => 1) (fun _ => 0) (fun _ => 1) 4 2).getD 0 [])
        [1, 2, 3, 4] = [1, 2, 3, 4] :=
  ⟨rfl, rfl,
    (rotary_position_zero_identity (fun _ => 1) (fun _ => 0) (fun _ => 1) 4 2
      [1, 2, 3, 4] rfl rfl (by decide) (by decide) (by decide)).2⟩

/-! The tensor-level shape contract of apply_rotary_emb, lines 91-104. -/

/-- A rank-4 torch tensor of rationals: an explicit shape plus an index
function (indices beyond the shape never matter). xq and xk have shape
(batch, seq, heads, head_dim). -/
structure Tensor4 where
  d0 : ℕ
  d1 : ℕ
  d2 : ℕ
  d3 : ℕ
  data : ℕ → ℕ → ℕ → ℕ → ℚ

/-- A rank-4 complex tensor, as produced by view_as_complex. -/
structure CTensor4 where
  d0 : ℕ
  d1 : ℕ
  d2 : ℕ
  d3 : ℕ
  data : ℕ → ℕ → ℕ → ℕ → ℚ × ℚ

/-- The freqs_cis table: a rank-2 complex tensor (positions × angles). -/
structure CTensor2 where
  d0 : ℕ
  d1 : ℕ
  data : ℕ → ℕ → ℚ × ℚ

/-- Lines 99-100: xq.float().reshape(*xq.shape[:-1], -1, 2) followed by
torch.view_as_complex; torch raises unless the trailing dimension is
even. -/
def viewAsComplex (x : Tensor4) : Option CTensor4 :=
  if x.d3 % 2 = 0 then
    some ⟨x.d0, x.d1, x.d2, x.d3 / 2,
      fun b s h m => (x.data b s h (2 * m), x.data b s h (2 * m + 1))⟩
  else none

/-- Lines 91-96 (reshape_for_broadcast): the assert
freqs_cis.shape == (x.shape[1], x.shape[-1]) against the complex-viewed
query, then the view to shape (1, seq, 1, pairs) for broadcasting. The
other assert, 0 <= 1 < ndim, holds trivially here since ndim = 4. -/
def reshapeForBroadcast (freqs : CTensor2) (x : CTensor4) : Option CTensor4 :=
  if freqs.d0 = x.d1 ∧ freqs.d1 = x.d3 then
    some ⟨1, x.d1, 1, x.d3, fun _ s _ m => freqs.data s m⟩
  else none

/-- Index adjustment of torch broadcasting: a size-1 dimension is read at
index 0. -/
def bcIdx (d i : ℕ) : ℕ := if d = 1 then 0 else i

/-- torch broadcasting compatibility of one dimension pair. -/
def bcCompat (a b : ℕ) : Bool := a == b || a == 1 || b == 1

/-- The elementwise complex product with torch broadcasting (the xq_ *
freqs_cis and xk_ * freqs_cis on lines 102-103); fails when the shapes are
not broadcast-compatible. -/
def cmulBroadcast (x y : CTensor4) : Option CTensor4 :=
  if bcCompat x.d0 y.d0 && bcCompat x.d1 y.d1
      && bcCompat x.d2 y.d2 && bcCompat x.d3 y.d3 then
    some ⟨max x.d0 y.d0, max x.d1 y.d1, max x.d2 y.d2, max x.d3 y.d3,
      fun b s h m =>
        cmul (x.data (bcIdx x.d0 b) (bcIdx x.d1 s) (bcIdx x.d2 h) (bcIdx x.d3 m))
             (y.data (bcIdx y.d0 b) (bcIdx y.d1 s) (bcIdx y.d2 h) (bcIdx y.d3 m))⟩
  else none

/-- torch.view_as_real(...).flatten(3): complex pairs back to an even
trailing real dimension. -/
def viewAsRealFlatten (x : CTensor4) : Tensor4 :=
  ⟨x.d0, x.d1, x.d2, x.d3 * 2,
    fun b s h d =>
      if d % 2 = 0 then (x.data b s h (d / 2)).1 else (x.data b s h (d / 2)).2⟩

/-- Lines 98-104 (apply_rotary_emb) at tensor level: complex-view both
inputs, run reshape_for_broadcast (with its shape assert against the
query), multiply with broadcasting, flatten back. -/
def applyRotaryEmb (xq xk : Tensor4) (freqs : CTensor2) :
    Option (Tensor4 × Tensor4) := do
  let xqC ← viewAsComplex xq
  let xkC ← viewAsComplex xk
  let fb ← reshapeForBroadcast freqs xqC
  let xqM ← cmulBroadcast xqC fb
  let xkM ← cmulBroadcast xkC fb
  some (viewAsRealFlatten xqM, viewAsRealFlatten xkM)

/-- C8: applying rotary encoding fails whenever the table's position
dimension differs from the query's sequence dimension or its angle
dimension differs from the query's trailing complex-pair feature dimension
(head_dim / 2 after the complex view), and it succeeds only when both
match. -/
theorem rotary_shape_contract (xq xk : Tensor4) (freqs : CTensor2) :
    (freqs.d0 ≠ xq.d1 ∨ freqs.d1 ≠ xq.d3 / 2 →
      applyRotaryEmb xq xk freqs = none)
    ∧ ((applyRotaryEmb xq xk freqs).isSome = true →
        freqs.d0 = xq.d1 ∧ freqs.d1 = xq.d3 / 2) := by
  have key : freqs.d0 ≠ xq.d1 ∨ freqs.d1 ≠ xq.d3 / 2 →
      applyRotaryEmb xq xk freqs = none := by
    intro hmm
    have hcondF : ¬(freqs.d0 = xq.d1 ∧ freqs.d1 = xq.d3 / 2) := by
      rcases hmm with h | h
      · exact fun hc => h hc.1
      · exact fun hc => h hc.2
    by_cases hq : xq.d3 % 2 = 0
    · by_cases hk : xk.d3 % 2 = 0
      · simp [applyRotaryEmb, viewAsComplex, hq, hk, reshapeForBroadcast, hcondF]
      · simp [applyRotaryEmb, viewAsComplex, hq, hk]
    · simp [applyRotaryEmb, viewAsComplex, hq]
  refine ⟨key, fun hs => ⟨?_, ?_⟩⟩
  · by_contra hne
    rw [key (Or.inl hne)] at hs
    simp at hs
  · by_contra hne
    rw [key (Or.inr hne)] at hs
    simp at hs

/-- Concrete tensors for the C8 witness: the query has sequence length 2
and head dimension 4 (so 2 complex pairs), while the table has 3 position
rows. -/
def xqW : Tensor4 := ⟨1, 2, 1, 4, fun _ _ _ _ => 0⟩

/-- A key tensor of the same shape as xqW. -/
def xkW : Tensor4 := ⟨1, 2, 1, 4, fun _ _ _ _ => 0⟩

/-- A frequency table with a mismatched position dimension: 3 rows against
sequence length 2. -/
def freqsW : CTensor2 := ⟨3, 2, fun _ _ => (1, 0)⟩

/-- C8 witness: with the mismatched table, the application fails. -/
theorem rotary_shape_contract_witness :
    (freqsW.d0 ≠ xqW.d1 ∨ freqsW.d1 ≠ xqW.d3 / 2)
    ∧ applyRotaryEmb xqW xkW freqsW = none :=
  ⟨Or.inl (by decide),
    (rotary_shape_contract xqW xkW freqsW).1 (Or.inl (by decide))⟩

/-! The Transformer forward pass at sequence level: RMSNorm (lines 56-67),
Attention.forward (lines 106-134), FeedForward (lines 136-149),
TransformerBlock (lines 151-173) and Transformer.forward (lines 203-223).
An activation of shape (seq, dim) is an index function position ↦ vector
(the batch dimension is dropped: every kernel is applied to each batch row
independently, so one row suffices for the per-input claims). -/

/-- One activation vector. -/
abbrev Vec := List ℚ

/-- A weight matrix as its list of rows (nn.Linear: one row per output
feature, no bias anywhere in this model). -/
abbrev Mat := List Vec

/-- Dot product. -/
def dot (a b : Vec) : ℚ := (List.zipWith (fun x y => x * y) a b).sum

/-- nn.Linear without bias: x ↦ W x. -/
def linApply (w : Mat) (x : Vec) : Vec := w.map (fun row => dot row x)

/-- Elementwise vector sum (the residual additions). -/
def vadd (a b : Vec) : Vec := List.zipWith (fun x y => x + y) a b

/-- Scalar times vector. -/
def vscale (c : ℚ) (v : Vec) : Vec := v.map (fun x => c * x)

/-- RMSNorm.forward (lines 62-67): x * rsqrt(mean(x²) + eps), then the
elementwise scale by the learned weight; rsqrtF stands for the real
reciprocal square root. -/
def rmsnorm (rsqrtF : ℚ → ℚ) (eps : ℚ) (w : Vec) (x : Vec) : Vec :=
  let ms := (x.map (fun v => v * v)).sum / (x.length : ℚ)
  List.zipWith (fun xi wi => xi * rsqrtF (ms + eps) * wi) x w

/-- A float value extended with -inf (represented by none), for the mask
entries and masked scores. -/
abbrev ERat := Option ℚ

/-- Addition on ERat: -inf absorbs, as in float arithmetic. -/
def eadd : ERat → ERat → ERat
  | some a, some b => some (a + b)
  | _, _ => none

/-- The softmax exponential extended to ERat: float exp(-inf) is exactly
0. expF stands for the real exponential. -/
def expE (expF : ℚ → ℚ) : ERat → ℚ
  | none => 0
  | some q => expF q

/-- Lines 213-217: torch.triu(torch.full((L, L), -inf), diagonal=1), with
the hstack of a width-0 zero block being the identity: entry (i, j) is
-inf iff j > i, and 0 otherwise. -/
def causalMaskEnt (i j : ℕ) : ERat := if i < j then none else some 0

/-- The weights and kernels one Attention layer uses. sqrtHD stands for
math.sqrt(head_dim) and freqs for the freqs_cis table already sliced to
the current sequence length (Transformer.forward line 209). -/
structure AttnParams where
  nHeads : ℕ
  headDim : ℕ
  wq : Mat
  wk : Mat
  wv : Mat
  wo : Mat
  sqrtHD : ℚ
  expF : ℚ → ℚ
  freqs : ℕ → List (ℚ × ℚ)

/-- The view(bsz, seqlen, n_heads, head_dim) split: head h of a projected
vector. -/
def headSlice (hd h : ℕ) (v : Vec) : Vec := (v.drop (h * hd)).take hd

/-- Query head h at position i: projection, head split, rotary (line 117
applies rotary to queries and keys, not values). -/
def qhead (A : AttnParams) (x : ℕ → Vec) (h i : ℕ) : Vec :=
  rotVec (A.freqs i) (headSlice A.headDim h (linApply A.wq (x i)))

/-- Key head h at position j, with rotary. -/
def khead (A : AttnParams) (x : ℕ → Vec) (h j : ℕ) : Vec :=
  rotVec (A.freqs j) (headSlice A.headDim h (linApply A.wk (x j)))

/-- Value head h at position j (no rotary). -/
def vhead (A : AttnParams) (x : ℕ → Vec) (h j : ℕ) : Vec :=
  headSlice A.headDim h (linApply A.wv (x j))

/-- Lines 123-124: the raw attention score Q·Kᵗ / sqrt(head_dim) of head h
between query position i and key position j. -/
def rawScore (A : AttnParams) (x : ℕ → Vec) (h i j : ℕ) : ℚ :=
  dot (qhead A x h i) (khead A x h j) / A.sqrtHD

/-- Lines 126-127: scores = scores + mask when a mask is passed. -/
def maskedScore (A : AttnParams) (mask : Option (ℕ → ℕ → ERat))
    (x : ℕ → Vec) (h i j : ℕ) : ERat :=
  match mask with
  | none => some (rawScore A x h i j)
  | some mk => eadd (some (rawScore A x h i j)) (mk i j)

/-- Line 129: softmax across the key dimension; a -inf masked score
contributes exp(-inf) = 0 to numerator and normalizer. -/
def attnWeight (A : AttnParams) (mask : Option (ℕ → ℕ → ERat)) (L : ℕ)
    (x : ℕ → Vec) (h i j : ℕ) : ℚ :=
  expE A.expF (maskedScore A mask x h i j)
    / ((List.range L).map (fun k => expE A.expF (maskedScore A mask x h i k))).sum

/-- Line 131: the weighted sum over values of head h at query position i. -/
def headOut (A : AttnParams) (mask : Option (ℕ → ℕ → ERat)) (L : ℕ)
    (x : ℕ → Vec) (h i : ℕ) : Vec :=
  ((List.range L).map (fun j => vscale (attnWeight A mask L x h i j) (vhead A x h j))).foldr
    vadd (List.replicate A.headDim 0)

/-- Lines 133-134: heads recombined by concatenation (transpose +
contiguous view), then the output projection. -/
def attnOut (A : AttnParams) (mask : Option (ℕ → ℕ → ERat)) (L : ℕ)
    (x : ℕ → Vec) (i : ℕ) : Vec :=
  linApply A.wo (((List.range A.nHeads).map (fun h => headOut A mask L x h i)).flatten)

/-- FeedForward weights; siluF stands for the real silu (x·sigmoid x). -/
structure FfnParams where
  w1 : Mat
  w2 : Mat
  w3 : Mat
  siluF : ℚ → ℚ

/-- Lines 147-149: w2(silu(w1 x) ⊙ w3 x). -/
def ffnForward (F : FfnParams) (x : Vec) : Vec :=
  linApply F.w2
    (List.zipWith (fun a b => a * b) ((linApply F.w1 x).map F.siluF) (linApply F.w3 x))

/-- One TransformerBlock's weights: attention, feed-forward and the two
pre-norms (lines 151-166). -/
structure BlockParams where
  attn : AttnParams
  ffnP : FfnParams
  rsqrtF : ℚ → ℚ
  eps : ℚ
  attnNormW : Vec
  ffnNormW : Vec

/-- TransformerBlock.forward (lines 168-173):
h = x + attention(attention_norm(x)); out = h + feed_forward(ffn_norm(h)). -/
def blockOut (B : BlockParams) (mask : Option (ℕ → ℕ → ERat)) (L : ℕ)
    (x : ℕ → Vec) : ℕ → Vec :=
  let h : ℕ → Vec := fun i =>
    vadd (x i)
      (attnOut B.attn mask L (fun j => rmsnorm B.rsqrtF B.eps B.attnNormW (x j)) i)
  fun i => vadd (h i) (ffnForward B.ffnP (rmsnorm B.rsqrtF B.eps B.ffnNormW (h i)))

/-- The whole stack's weights (lines 176-190). -/
structure TransParams where
  emb : Mat
  layers : List BlockParams
  normW : Vec
  rsqrtF : ℚ → ℚ
  eps : ℚ
  outW : Mat

/-- Line 206: tok_embeddings, a table lookup per position (token ids are
nonnegative vocabulary indices). -/
def embLookup (emb : Mat) (t : Tok) : Vec := emb.getD t.toNat []

/-- Lines 210-217: the mask passed to every layer — None for a single
position, the strictly-upper-triangular -inf matrix when seqlen > 1. -/
def forwardMask (L : ℕ) : Option (ℕ → ℕ → ERat) :=
  if 1 < L then some causalMaskEnt else none

/-- Transformer.forward (lines 203-223): embedding, all blocks in order
with the shared mask and the sliced rotary table (the lazy device move on
line 208 is output-invariant and dropped), final norm, output projection
(the float() cast is the identity here). -/
def transformerForward (P : TransParams) (L : ℕ) (toks : ℕ → Tok) : ℕ → Vec :=
  let h0 : ℕ → Vec := fun i => embLookup P.emb (toks i)
  let hN := P.layers.foldl (fun h B => blockOut B (forwardMask L) L h) h0
  fun i => linApply P.outW (rmsnorm P.rsqrtF P.eps P.normW (hN i))

/-! Causality lemmas: under the causal mask, everything at query position i
depends only on activations at positions at most i. -/

lemma linApply_length (w : Mat) (x : Vec) : (linApply w x).length = w.length := by
  simp [linApply]

lemma vhead_length (A : AttnParams) (x : ℕ → Vec) (h j : ℕ) :
    (vhead A x h j).length = min A.headDim (A.wv.length - h * A.headDim) := by
  simp [vhead, headSlice, linApply_length]

lemma vscale_zero (v : Vec) : vscale 0 v = List.replicate v.length 0 := by
  induction v with
  | nil => rfl
  | cons a t ih =>
      show (0 * a) :: vscale 0 t = 0 :: List.replicate t.length 0
      rw [zero_mul, ih]

lemma maskedScore_high (A : AttnParams) (x : ℕ → Vec) (h i j : ℕ)
    (hij : i < j) : maskedScore A (some causalMaskEnt) x h i j = none := by
  simp [maskedScore, causalMaskEnt, hij, eadd]

lemma rawScore_congr (A : AttnParams) (x y : ℕ → Vec) (h i j : ℕ)
    (hxi : x i = y i) (hxj : x j = y j) :
    rawScore A x h i j = rawScore A y h i j := by
  simp [rawScore, qhead, khead, hxi, hxj]

lemma expEscore_congr (A : AttnParams) (x y : ℕ → Vec) (i : ℕ)
    (hagree : ∀ j, j ≤ i → x j = y j) (h k : ℕ) :
    expE A.expF (maskedScore A (some causalMaskEnt) x h i k)
      = expE A.expF (maskedScore A (some causalMaskEnt) y h i k) := by
  by_cases hik : i < k
  · rw [maskedScore_high A x h i k hik, maskedScore_high A y h i k hik]
  · have hr : rawScore A x h i k = rawScore A y h i k :=
      rawScore_congr A x y h i k (hagree i le_rfl) (hagree k (Nat.le_of_not_lt hik))
    simp [maskedScore, causalMaskEnt, hik, eadd, hr]

lemma attnWeight_congr (A : AttnParams) (L : ℕ) (x y : ℕ → Vec) (i : ℕ)
    (hagree : ∀ j, j ≤ i → x j = y j) (h j : ℕ) :
    attnWeight A (some causalMaskEnt) L x h i j
      = attnWeight A (some causalMaskEnt) L y h i j := by
  unfold attnWeight
  rw [expEscore_congr A x y i hagree h j]
  congr 2
  exact List.map_congr_left (fun k _ => expEscore_congr A x y i hagree h k)

lemma attnWeight_masked (A : AttnParams) (L : ℕ) (x : ℕ → Vec) (h i j : ℕ)
    (hij : i < j) : attnWeight A (some causalMaskEnt) L x h i j = 0 := by
  unfold attnWeight
  rw [maskedScore_high A x h i j hij]
  simp [expE]

lemma headOut_congr (A : AttnParams) (L : ℕ) (x y : ℕ → Vec) (i : ℕ)
    (hagree : ∀ j, j ≤ i → x j = y j) (h : ℕ) :
    headOut A (some causalMaskEnt) L x h i
      = headOut A (some causalMaskEnt) L y h i := by
  unfold headOut
  congr 1
  refine List.map_congr_left (fun j _ => ?_)
  by_cases hij : i < j
  · rw [attnWeight_masked A L x h i j hij, attnWeight_masked A L y h i j hij,
      vscale_zero, vscale_zero, vhead_length, vhead_length]
  · have hxy : vhead A x h j = vhead A y h j := by
      simp [vhead, hagree j (Nat.le_of_not_lt hij)]
    rw [attnWeight_congr A L x y i hagree h j, hxy]

lemma attnOut_congr (A : AttnParams) (L : ℕ) (x y : ℕ → Vec) (i : ℕ)
    (hagree : ∀ j, j ≤ i → x j = y j) :
    attnOut A (some causalMaskEnt) L x i = attnOut A (some causalMaskEnt) L y i := by
  unfold attnOut
  congr 2
  exact List.map_congr_left (fun h _ => headOut_congr A L x y i hagree h)

lemma blockOut_agree (B : BlockParams) (L : ℕ) (x y : ℕ → Vec) (i : ℕ)
    (hagree : ∀ j, j ≤ i → x j = y j) :
    ∀ j, j ≤ i → blockOut B (some causalMaskEnt) L x j
      = blockOut B (some causalMaskEnt) L y j := by
  have hmid : ∀ j, j ≤ i →
      vadd (x j) (attnOut B.attn (some causalMaskEnt) L
          (fun k => rmsnorm B.rsqrtF B.eps B.attnNormW (x k)) j)
        = vadd (y j) (attnOut B.attn (some causalMaskEnt) L
          (fun k => rmsnorm B.rsqrtF B.eps B.attnNormW (y k)) j) := by
    intro j hj
    rw [hagree j hj, attnOut_congr B.attn L _ _ j
      (fun k hk => congrArg _ (hagree k (le_trans hk hj)))]
  intro j hj
  simp only [blockOut]
  rw [hmid j hj]

lemma foldl_blocks_agree (L : ℕ) :
    ∀ (layers : List BlockParams) (x y : ℕ → Vec) (i : ℕ),
      (∀ j, j ≤ i → x j = y j) → ∀ j, j ≤ i →
        (layers.foldl (fun h B => blockOut B (some causalMaskEnt) L h) x) j
          = (layers.foldl (fun h B => blockOut B (some causalMaskEnt) L h) y) j
  | [], _, _, _, hagree, j, hj => hagree j hj
  | B :: bs, x, y, i, hagree, j, hj => by
      simp only [List.foldl_cons]
      exact foldl_blocks_agree L bs _ _ i (blockOut_agree B L x y i hagree) j hj

/-- C1: for sequence length L > 1 the forward pass passes every layer the
strictly-upper-triangular -inf mask (none stands for -inf); the mask added
to the raw scores makes every post-softmax weight at key position j > i
exactly zero; and consequently two token sequences that agree at all
positions up to i (differing only at positions j > i) produce identical
transformer outputs at position i. -/
theorem causal_mask_independence (P : TransParams) (L : ℕ) (hL : 1 < L)
    (toks1 toks2 : ℕ → Tok) (i : ℕ) (_hi : i < L)
    (hagree : ∀ j, j ≤ i → toks1 j = toks2 j) :
    forwardMask L = some causalMaskEnt
    ∧ (∀ a b, a < b → causalMaskEnt a b = none)
    ∧ (∀ a b, ¬a < b → causalMaskEnt a b = some 0)
    ∧ (∀ (A : AttnParams) (x : ℕ → Vec) (h j : ℕ), i < j →
        attnWeight A (some causalMaskEnt) L x h i j = 0)
    ∧ transformerForward P L toks1 i = transformerForward P L toks2 i := by
  refine ⟨by simp [forwardMask, hL],
    fun a b hab => by simp [causalMaskEnt, hab],
    fun a b hab => by simp [causalMaskEnt, hab],
    fun A x h j hij => attnWeight_masked A L x h i j hij, ?_⟩
  simp only [transformerForward, forwardMask, hL, if_true]
  have h0 : ∀ j, j ≤ i →
      embLookup P.emb (toks1 j) = embLookup P.emb (toks2 j) :=
    fun j hj => congrArg _ (hagree j hj)
  rw [foldl_blocks_agree L P.layers (fun j => embLookup P.emb (toks1 j))
    (fun j => embLookup P.emb (toks2 j)) i h0 i le_rfl]

/-- A tiny concrete parameter set for the C1 witness: dimension 2, one
layer, one head, identity projection matrices and simple kernels. -/
def pC1 : TransParams :=
  { emb := [[1, 0], [0, 1], [1, 1]]
    layers := [{ attn := { nHeads := 1, headDim := 2
                           wq := [[1, 0], [0, 1]], wk := [[1, 0], [0, 1]]
                           wv := [[1, 0], [0, 1]], wo := [[1, 0], [0, 1]]
                           sqrtHD := 2, expF := fun _ => 1
                           freqs := fun _ => [(1, 0)] }
                 ffnP := { w1 := [[1, 0], [0, 1]], w2 := [[1, 0], [0, 1]]
                           w3 := [[1, 0], [0, 1]], siluF := fun q => q }
                 rsqrtF := fun _ => 1, eps := 1
                 attnNormW := [1, 1], ffnNormW := [1, 1] }]
    normW := [1, 1]
    rsqrtF := fun _ => 1
    eps := 1
    outW := [[1, 0], [0, 1], [1, 1]] }

/-- Token sequence A for the C1 witness. -/
def toksA : ℕ → Tok := fun j => if j = 0 then 0 else 1

/-- Token sequence B: agrees with toksA at position 0, differs at 1. -/
def toksB : ℕ → Tok := fun j => if j = 0 then 0 else 2

/-- C1 witness: two length-2 inputs differing only at position 1 produce
the same output at position 0. -/
theorem causal_mask_independence_witness :
    (1 < 2 ∧ toksA 0 = toksB 0 ∧ toksA 1 ≠ toksB 1)
    ∧ transformerForward pC1 2 toksA 0 = transformerForward pC1 2 toksB 0 :=
  ⟨⟨by decide, rfl, by decide⟩,
    (causal_mask_independence pC1 2 (by decide) toksA toksB 0 (by decide)
      (by decide)).2.2.2.2⟩

end Llama
